import Mathlib

/-!
Verification of the applitrack job-application tracker's core algorithms:
search indexing (`performanceService.ts`), linear search and structured
filtering (`searchJobs` / `filterJobs`), the sort comparator
(`JobTracker.tsx`), the status-automation analyzer
(`statusAutomationService.ts`) and the storage update path (`schemas.ts`).

Strings are modelled as lists of characters (`Str`).  JavaScript's `NaN`
outcomes of `parseInt` and `Date` parsing are modelled by `Option Int`
(`none` standing for `NaN` / an invalid date); every comparison involving
`none` is `false`, matching IEEE semantics of `NaN` comparisons.
-/

namespace Applitrack

abbrev Str := List Char

/-- Lower-casing of a JS string (`String.prototype.toLowerCase`),
modelled character-wise with `Char.toLower`. -/
def toLowerStr (s : Str) : Str := s.map Char.toLower

/-- `String.prototype.split(/\s+/)`: split at maximal whitespace runs; a
leading run yields a leading empty token and a trailing run a trailing
empty token, exactly as in JavaScript (a whitespace character followed by
another whitespace character extends the current separator run). -/
def jsSplitWs : Str → List Str
  | [] => [[]]
  | c :: rest =>
    if c.isWhitespace then
      match rest with
      | [] => [[], []]
      | d :: _ =>
        if d.isWhitespace then jsSplitWs rest
        else [] :: jsSplitWs rest
    else
      match jsSplitWs rest with
      | [] => [[c]]
      | t :: ts => (c :: t) :: ts

/-- `String.prototype.split(" ")`: split at every single space character. -/
def splitSpace : Str → List Str
  | [] => [[]]
  | c :: rest =>
    if c = ' ' then
      [] :: splitSpace rest
    else
      match splitSpace rest with
      | [] => [[c]]
      | t :: ts => (c :: t) :: ts

/-- `String.prototype.trim()`. -/
def jsTrim (l : Str) : Str :=
  ((l.dropWhile Char.isWhitespace).reverse.dropWhile Char.isWhitespace).reverse

/-- Substring test, i.e. `String.prototype.startsWith` at position 0:
does `hay` start with `needle`? -/
def startsWith : Str → Str → Bool
  | _, [] => true
  | [], _ :: _ => false
  | a :: as, b :: bs => a = b && startsWith as bs

/-- `String.prototype.includes`: does `hay` contain `needle` as a
contiguous substring? -/
def strContains (hay needle : Str) : Bool :=
  match hay with
  | [] => decide (needle = [])
  | _ :: rest => startsWith hay needle || strContains rest needle

/-- Decimal value of a run of digit characters. -/
def digitsToNat (ds : Str) : Nat :=
  ds.foldl (fun n c => 10 * n + (c.toNat - ('0').toNat)) 0

/-- Leading digit run of a string, `none` when there is none. -/
def leadDigits (s : Str) : Option Nat :=
  let ds := s.takeWhile Char.isDigit
  if ds = [] then none else some (digitsToNat ds)

/-- JavaScript `parseInt` in base 10: skip leading whitespace, optional
sign, then the leading digit run; `none` models `NaN`. -/
def parseIntJS (s : Str) : Option Int :=
  let t := s.dropWhile Char.isWhitespace
  match t with
  | '-' :: rest => (leadDigits rest).map (fun n => -(n : Int))
  | '+' :: rest => (leadDigits rest).map (fun n => (n : Int))
  | _ => (leadDigits t).map (fun n => (n : Int))

/-- Days from the Unix epoch of a proleptic Gregorian civil date
(Hinnant's `days_from_civil` algorithm, floor divisions throughout). -/
def daysFromCivil (y m d : Int) : Int :=
  let y2 := if m ≤ 2 then y - 1 else y
  let era := Int.fdiv y2 400
  let yoe := y2 - era * 400
  let mp := Int.emod (m + 9) 12
  let doy := Int.fdiv (153 * mp + 2) 5 + d - 1
  let doe := yoe * 365 + Int.fdiv yoe 4 - Int.fdiv yoe 100 + doy
  era * 146097 + doe - 719468

def isLeapYear (y : Int) : Bool :=
  (Int.emod y 4 = 0 && Int.emod y 100 ≠ 0) || Int.emod y 400 = 0

def daysInMonth (y m : Int) : Int :=
  if m = 2 then (if isLeapYear y then 29 else 28)
  else if m = 4 ∨ m = 6 ∨ m = 9 ∨ m = 11 then 30
  else 31

/-- `new Date(s).getTime()` for the ISO `YYYY-MM-DD` date-only production
(parsed as UTC midnight); every other string is modelled as an invalid
date (`none`, standing for `NaN`).  The engine-specific fallback formats
are not modelled. -/
def parseDateJS (s : Str) : Option Int :=
  match s with
  | [y1, y2, y3, y4, '-', m1, m2, '-', d1, d2] =>
    if y1.isDigit ∧ y2.isDigit ∧ y3.isDigit ∧ y4.isDigit ∧
       m1.isDigit ∧ m2.isDigit ∧ d1.isDigit ∧ d2.isDigit then
      let y : Int := (digitsToNat [y1, y2, y3, y4] : Nat)
      let m : Int := (digitsToNat [m1, m2] : Nat)
      let d : Int := (digitsToNat [d1, d2] : Nat)
      if 1 ≤ m ∧ m ≤ 12 ∧ 1 ≤ d ∧ d ≤ daysInMonth y m then
        some (86400000 * daysFromCivil y m d)
      else none
    else none
  | _ => none

/-- JS `<` on two possibly-`NaN` numbers: any comparison with `NaN` is
`false`. -/
def jsLt (a b : Option Int) : Bool :=
  match a, b with
  | some x, some y => decide (x < y)
  | _, _ => false

/-- JS `>` on two possibly-`NaN` numbers. -/
def jsGt (a b : Option Int) : Bool :=
  match a, b with
  | some x, some y => decide (x > y)
  | _, _ => false

/-- Truthiness of an optional JS string: present and non-empty. -/
def optTruthy (o : Option Str) : Bool :=
  match o with
  | some s => decide (s ≠ [])
  | none => false

/-- Decimal rendering of an integer (for template-literal reasons). -/
def intToStr (i : Int) : Str :=
  if i < 0 then '-' :: Nat.toDigits 10 i.natAbs
  else Nat.toDigits 10 i.toNat

/-! ## Data model (`types/job.ts`) -/

inductive JobStatus
  | applied | shortlisted | interview | rejected | offered
deriving DecidableEq, Repr

def statusStr : JobStatus → Str
  | .applied => "applied".toList
  | .shortlisted => "shortlisted".toList
  | .interview => "interview".toList
  | .rejected => "rejected".toList
  | .offered => "offered".toList

inductive JobType
  | fullTime | partTime | contract | freelance | internship
deriving DecidableEq, Repr

def jobTypeStr : JobType → Str
  | .fullTime => "full-time".toList
  | .partTime => "part-time".toList
  | .contract => "contract".toList
  | .freelance => "freelance".toList
  | .internship => "internship".toList

inductive WorkMode
  | remote | onSite | hybrid
deriving DecidableEq, Repr

def workModeStr : WorkMode → Str
  | .remote => "remote".toList
  | .onSite => "on-site".toList
  | .hybrid => "hybrid".toList

inductive ExperienceLevel
  | entry | mid | senior | lead | executive
deriving DecidableEq, Repr

def levelStr : ExperienceLevel → Str
  | .entry => "entry".toList
  | .mid => "mid".toList
  | .senior => "senior".toList
  | .lead => "lead".toList
  | .executive => "executive".toList

inductive JobPriority
  | low | medium | high
deriving DecidableEq, Repr

def priorityStr : JobPriority → Str
  | .low => "low".toList
  | .medium => "medium".toList
  | .high => "high".toList

inductive ContactType
  | recruiter | hiringManager | teamMember | other
deriving DecidableEq, Repr

inductive DocumentType
  | resume | coverLetter | portfolio | other
deriving DecidableEq, Repr

structure SalaryRange where
  min : Option Str
  max : Option Str
  currency : Option Str
deriving DecidableEq, Repr

structure StatusHistoryEntry where
  id : Str
  status : JobStatus
  date : Str
  notes : Option Str
deriving DecidableEq, Repr

structure Contact where
  id : Str
  name : Str
  title : Option Str
  email : Option Str
  phone : Option Str
  linkedIn : Option Str
  ctype : ContactType
deriving DecidableEq, Repr

structure JobDocument where
  id : Str
  name : Str
  dtype : DocumentType
  url : Option Str
  uploadDate : Str
  fileSize : Option Int
  mimeType : Option Str
  content : Option Str
  jobId : Option Str
deriving DecidableEq, Repr

/-- The `JobApplication` entity.  `salaryRange` is accessed with optional
chaining (`job.salaryRange?.min`) everywhere in the code, so it is
modelled as optional. -/
structure JobApplication where
  id : Str
  company : Str
  role : Str
  salaryRange : Option SalaryRange
  workLocation : Str
  jobType : JobType
  workMode : WorkMode
  status : JobStatus
  interviewLink : Option Str
  appliedDate : Str
  notes : Option Str
  category : Option Str
  experienceLevel : Option ExperienceLevel
  jobPostingUrl : Option Str
  interviewDate : Option Str
  statusHistory : Option (List StatusHistoryEntry)
  contacts : Option (List Contact)
  documents : Option (List JobDocument)
  followUpDate : Option Str
  priority : Option JobPriority
  archived : Option Bool
deriving DecidableEq, Repr

/-- A baseline record used to build concrete instances compactly. -/
def baseJob : JobApplication where
  id := "j1".toList
  company := "Acme".toList
  role := "Engineer".toList
  salaryRange := none
  workLocation := "NYC".toList
  jobType := .fullTime
  workMode := .remote
  status := .applied
  interviewLink := none
  appliedDate := "2024-01-01".toList
  notes := none
  category := none
  experienceLevel := none
  jobPostingUrl := none
  interviewDate := none
  statusHistory := none
  contacts := none
  documents := none
  followUpDate := none
  priority := none
  archived := none

/-! ## Search index (`performanceService.ts`, `createSearchIndex` /
`searchWithIndex`) -/

/-- The inverted index `Map<string, Set<number>>`: an association list in
key-insertion order, each posting set a duplicate-free list in insertion
order (JS `Map`s and `Set`s iterate in insertion order). -/
abbrev SearchIndex := List (Str × List Nat)

/-- `Set.prototype.add`. -/
def setAdd (s : List Nat) (i : Nat) : List Nat :=
  if i ∈ s then s else s ++ [i]

/-- `Map.prototype.get`. -/
def idxLookup (idx : SearchIndex) (k : Str) : Option (List Nat) :=
  match idx with
  | [] => none
  | (k2, v) :: rest => if k2 = k then some v else idxLookup rest k

/-- `if (!index.has(k)) index.set(k, new Set()); index.get(k)!.add(i)`. -/
def idxInsert (idx : SearchIndex) (k : Str) (i : Nat) : SearchIndex :=
  match idx with
  | [] => [(k, [i])]
  | (k2, v) :: rest =>
    if k2 = k then (k2, setAdd v i) :: rest
    else (k2, v) :: idxInsert rest k i

/-- Non-empty prefixes of a word, lengths 1 through `w.length`
(`word.substring(0, i)` for `i` in `1..=length`). -/
def wordSlices (w : Str) : List Str :=
  (List.range w.length).map (fun i => w.take (i + 1))

/-- Index one word at record position `i`: the full word, then each of
its non-empty prefixes. -/
def addWord (idx : SearchIndex) (w : Str) (i : Nat) : SearchIndex :=
  (wordSlices w).foldl (fun a p => idxInsert a p i) (idxInsert idx w i)

/-- The searchable blob of `createSearchIndex`: the listed fields (in
source order), dropping falsy entries (absent fields and empty strings),
joined by single spaces and lower-cased. -/
def blobOf (parts : List (Option Str)) : Str :=
  toLowerStr (List.intercalate (' ' :: [])
    ((parts.filterMap id).filter (fun s => decide (s ≠ []))))

def indexedParts (j : JobApplication) : List (Option Str) :=
  [some j.company, some j.role, some j.workLocation, j.category, j.notes,
   some (statusStr j.status), j.experienceLevel.map levelStr,
   some (jobTypeStr j.jobType), some (workModeStr j.workMode)]

def blobIndexed (j : JobApplication) : Str := blobOf (indexedParts j)

/-- Index every non-empty word of one record's blob. -/
def indexJob (idx : SearchIndex) (i : Nat) (j : JobApplication) : SearchIndex :=
  (jsSplitWs (blobIndexed j)).foldl
    (fun a w => if w.length > 0 then addWord a w i else a) idx

/-- `createSearchIndex(jobs)`. -/
def createSearchIndex (jobs : List JobApplication) : SearchIndex :=
  jobs.enum.foldl (fun a p => indexJob a p.1 p.2) []

/-- The per-term posting-set intersection of `searchWithIndex`:
`none` models the `resultIndexes === null` state (no terms seen). -/
def intersectTerms (idx : SearchIndex) : List Str → Option (List Nat)
  | [] => none
  | t :: ts =>
    some (ts.foldl
      (fun acc t2 => acc.filter (fun i => decide (i ∈ (idxLookup idx t2).getD [])))
      ((idxLookup idx t).getD []))

/-- `searchWithIndex(query, jobs, searchIndex)`. -/
def searchWithIndex (q : Str) (jobs : List JobApplication)
    (idx : SearchIndex) : List JobApplication :=
  if jsTrim q = [] then jobs
  else
    match intersectTerms idx (jsSplitWs (toLowerStr q)) with
    | none => []
    | some inter => inter.filterMap (fun i => jobs.get? i)

/-! ## Linear search (`searchJobs`) -/

/-- Lower-cased, single-space-tokenized query terms with empty terms
discarded. -/
def spaceTerms (q : Str) : List Str :=
  (splitSpace (toLowerStr q)).filter (fun t => decide (t.length > 0))

/-- The linear-search blob: the indexed fields (in `searchJobs`'s own
field order) plus salary currency, contact names/titles/emails and
document names. -/
def linearParts (j : JobApplication) : List (Option Str) :=
  [some j.company, some j.role, some j.workLocation, j.category, j.notes,
   some (statusStr j.status), some (jobTypeStr j.jobType),
   some (workModeStr j.workMode), j.experienceLevel.map levelStr,
   j.salaryRange.bind SalaryRange.currency]
  ++ ((j.contacts.getD []).flatMap
      (fun c => ([some c.name, c.title, c.email].filterMap id).filter
        (fun s => decide (s ≠ [])))).map some
  ++ ((j.documents.getD []).map (fun d => some d.name))

def blobLinear (j : JobApplication) : Str := blobOf (linearParts j)

/-- `searchJobs(jobs, searchTerm)`. -/
def searchJobs (jobs : List JobApplication) (q : Str) : List JobApplication :=
  if jsTrim q = [] then jobs
  else
    jobs.filter (fun j =>
      (spaceTerms q).all (fun t => strContains (blobLinear j) t))

/-! ## Structured filter (`filterJobs`) -/

/-- The (dynamically typed) filter object.  String-valued fields carry
arbitrary strings: JS truthiness makes the empty string as unconstraining
as an absent field. -/
structure FilterOptions where
  status : Option Str
  jobType : Option Str
  workMode : Option Str
  experienceLevel : Option Str
  priority : Option Str
  category : Option Str
  location : Option Str
  salaryRange : Option (Int × Int)
  dateRange : Option (Str × Str)
  hasInterview : Option Bool
  archived : Option Bool
deriving DecidableEq, Repr

def emptyFilters : FilterOptions where
  status := none
  jobType := none
  workMode := none
  experienceLevel := none
  priority := none
  category := none
  location := none
  salaryRange := none
  dateRange := none
  hasInterview := none
  archived := none

def allStr : Str := "all".toList

/-- `filters.f && filters.f !== "all" && value !== filters.f` for a
required enum field rendered as a string. -/
def failsEnum (fld : Option Str) (v : Str) : Bool :=
  match fld with
  | none => false
  | some s => decide (s ≠ []) && decide (s ≠ allStr) && decide (v ≠ s)

/-- The same test for an optional record field (`undefined` mismatches
every truthy non-"all" filter string). -/
def failsEnumOpt (fld : Option Str) (v : Option Str) : Bool :=
  match fld with
  | none => false
  | some s => decide (s ≠ []) && decide (s ≠ allStr) && decide (v ≠ some s)

/-- `filters.location && !job.workLocation.toLowerCase().includes(...)`:
note there is no "all" exemption here. -/
def failsLocation (fld : Option Str) (j : JobApplication) : Bool :=
  match fld with
  | none => false
  | some s =>
    decide (s ≠ []) && !(strContains (toLowerStr j.workLocation) (toLowerStr s))

/-- The record's effective salary bounds: a falsy (absent or empty) min
parses to 0, a falsy max to 999999; a truthy unparsable string is `NaN`. -/
def jobMinSalary (j : JobApplication) : Option Int :=
  match j.salaryRange with
  | none => some 0
  | some sr =>
    match sr.min with
    | none => some 0
    | some m => if m = [] then some 0 else parseIntJS m

def jobMaxSalary (j : JobApplication) : Option Int :=
  match j.salaryRange with
  | none => some 999999
  | some sr =>
    match sr.max with
    | none => some 999999
    | some m => if m = [] then some 999999 else parseIntJS m

/-- `jobMaxSalary < filters.salaryRange.min || jobMinSalary > filters.salaryRange.max`. -/
def failsSalary (fld : Option (Int × Int)) (j : JobApplication) : Bool :=
  match fld with
  | none => false
  | some (mn, mx) =>
    jsLt (jobMaxSalary j) (some mn) || jsGt (jobMinSalary j) (some mx)

/-- `jobDate < startDate || jobDate > endDate` on parsed dates. -/
def failsDate (fld : Option (Str × Str)) (j : JobApplication) : Bool :=
  match fld with
  | none => false
  | some (s, e) =>
    jsLt (parseDateJS j.appliedDate) (parseDateJS s) ||
    jsGt (parseDateJS j.appliedDate) (parseDateJS e)

/-- `status === "interview" || !!interviewDate || !!interviewLink`. -/
def hasInterviewOf (j : JobApplication) : Bool :=
  decide (j.status = .interview) || optTruthy j.interviewDate ||
  optTruthy j.interviewLink

def failsHasInterview (fld : Option Bool) (j : JobApplication) : Bool :=
  match fld with
  | none => false
  | some b => decide (b ≠ hasInterviewOf j)

/-- `filters.archived !== undefined && job.archived !== filters.archived`
(an absent `job.archived` mismatches both booleans). -/
def failsArchived (fld : Option Bool) (j : JobApplication) : Bool :=
  match fld with
  | none => false
  | some b => decide (j.archived ≠ some b)

/-- The early-return chain of `filterJobs`'s predicate. -/
def jobPasses (f : FilterOptions) (j : JobApplication) : Bool :=
  if failsEnum f.status (statusStr j.status) then false
  else if failsEnum f.jobType (jobTypeStr j.jobType) then false
  else if failsEnum f.workMode (workModeStr j.workMode) then false
  else if failsEnumOpt f.experienceLevel (j.experienceLevel.map levelStr) then false
  else if failsEnumOpt f.priority (j.priority.map priorityStr) then false
  else if failsEnumOpt f.category j.category then false
  else if failsLocation f.location j then false
  else if failsSalary f.salaryRange j then false
  else if failsDate f.dateRange j then false
  else if failsHasInterview f.hasInterview j then false
  else if failsArchived f.archived j then false
  else true

/-- `filterJobs(jobs, filters)`. -/
def filterJobs (jobs : List JobApplication) (f : FilterOptions) :
    List JobApplication :=
  jobs.filter (fun j => jobPasses f j)

/-! ## Sort (`JobTracker.tsx`, `filteredAndSortedJobs`)

`Array.prototype.sort` with a user comparator is required to be stable;
it is modelled by a stable insertion sort over the boolean relation
"comparator value not positive".  A `NaN` comparator value (`none`)
leaves the engine's order implementation-defined; the model treats it as
a tie, and every theorem below assumes parseable keys. -/

/-- Stable insertion of `x` after every already-placed element `y` with
`le y x`. -/
def insertStable (le : α → α → Bool) (x : α) : List α → List α
  | [] => [x]
  | y :: ys => if le y x then y :: insertStable le x ys else x :: y :: ys

/-- Stable sort: insert the elements left to right. -/
def jsSort (le : α → α → Bool) (l : List α) : List α :=
  l.foldl (fun acc x => insertStable le x acc) []

inductive SortField
  | appliedDate | company | role | status | priority | interviewDate
deriving DecidableEq, Repr

inductive SortOrder
  | asc | desc
deriving DecidableEq, Repr

/-- Code-point lexicographic three-way string comparison, the model of
`String.prototype.localeCompare` under a code-point collation. -/
def lexCompare : Str → Str → Int
  | [], [] => 0
  | [], _ :: _ => -1
  | _ :: _, [] => 1
  | a :: as, b :: bs =>
    if a.toNat < b.toNat then -1
    else if b.toNat < a.toNat then 1
    else lexCompare as bs

def priorityVal (p : Option JobPriority) : Int :=
  match p with
  | some .high => 3
  | some .medium => 2
  | some .low => 1
  | none => 0

/-- `a.interviewDate ? new Date(a.interviewDate).getTime() : 0`. -/
def interviewKey (j : JobApplication) : Option Int :=
  match j.interviewDate with
  | none => some 0
  | some s => if s = [] then some 0 else parseDateJS s

/-- Subtraction of possibly-`NaN` numbers. -/
def jsSub (a b : Option Int) : Option Int :=
  match a, b with
  | some x, some y => some (x - y)
  | _, _ => none

/-- The switch over `sort.field`: the raw comparator value (an `Option
Int`, `none` for `NaN`). -/
def comparisonOf (field : SortField) (a b : JobApplication) : Option Int :=
  match field with
  | .appliedDate => jsSub (parseDateJS a.appliedDate) (parseDateJS b.appliedDate)
  | .company => some (lexCompare a.company b.company)
  | .role => some (lexCompare a.role b.role)
  | .status => some (lexCompare (statusStr a.status) (statusStr b.status))
  | .priority => some (priorityVal a.priority - priorityVal b.priority)
  | .interviewDate => jsSub (interviewKey a) (interviewKey b)

/-- `sort.order === "desc" ? -comparison : comparison`. -/
def orderedComparison (field : SortField) (ord : SortOrder)
    (a b : JobApplication) : Option Int :=
  match ord with
  | .asc => comparisonOf field a b
  | .desc => (comparisonOf field a b).map (fun v => -v)

/-- "Do not place `a` after `b`": comparator value not positive
(`NaN`, which compares false with everything, counts as a tie). -/
def sortLe (field : SortField) (ord : SortOrder) (a b : JobApplication) : Bool :=
  match orderedComparison field ord a b with
  | some v => decide (v ≤ 0)
  | none => true

def sortJobs (field : SortField) (ord : SortOrder)
    (jobs : List JobApplication) : List JobApplication :=
  jsSort (sortLe field ord) jobs

/-! ## Status automation (`statusAutomationService.ts`) -/

inductive RuleCondition
  | timeElapsed | interviewDatePassed | manualTrigger
deriving DecidableEq, Repr

structure StatusRule where
  id : Str
  name : Str
  description : Str
  fromStatus : JobStatus
  toStatus : JobStatus
  condition : RuleCondition
  timeDelay : Option Int
  isActive : Bool
  createdAt : Str
deriving DecidableEq, Repr

structure StatusSuggestion where
  jobId : Str
  currentStatus : JobStatus
  suggestedStatus : JobStatus
  reason : Str
  confidence : ℚ
  autoApply : Bool
deriving DecidableEq, Repr

/-- The default rule "applied-to-followup" (`createdAt` is the run-time
clock value, taken as a parameter). -/
def ruleAppliedFollowup (iso : Str) : StatusRule where
  id := "applied-to-followup".toList
  name := "Applied → Follow-up Needed".toList
  description := "Suggest follow-up after 7 days of applying".toList
  fromStatus := .applied
  toStatus := .applied
  condition := .timeElapsed
  timeDelay := some 7
  isActive := true
  createdAt := iso

/-- The default rule "interview-to-followup". -/
def ruleInterviewFollowup (iso : Str) : StatusRule where
  id := "interview-to-followup".toList
  name := "Interview → Follow-up".toList
  description := "Suggest follow-up 3 days after interview date".toList
  fromStatus := .interview
  toStatus := .interview
  condition := .interviewDatePassed
  timeDelay := some 3
  isActive := true
  createdAt := iso

/-- The default rule "shortlisted-stale". -/
def ruleShortlistedStale (iso : Str) : StatusRule where
  id := "shortlisted-stale".toList
  name := "Shortlisted → Follow-up".toList
  description := "Follow up on shortlisted applications after 10 days".toList
  fromStatus := .shortlisted
  toStatus := .shortlisted
  condition := .timeElapsed
  timeDelay := some 10
  isActive := true
  createdAt := iso

/-- The default rule set installed by `initializeDefaultRules`. -/
def defaultRules (iso : Str) : List StatusRule :=
  [ruleAppliedFollowup iso, ruleInterviewFollowup iso, ruleShortlistedStale iso]

/-- One rule applied to one record inside `analyzeJobs`; `now` is the
clock in epoch milliseconds.  An unparsable date gives `NaN` day counts,
whose `>=` comparison is false, hence no suggestion; a `timeDelay` of 0
is falsy and skips the branch. -/
def reasonSep : Str := ": ".toList
def reasonDaysApplication : Str := " days since application".toList
def reasonDaysInterview : Str := " days since interview".toList

def evalRule (now : Int) (rule : StatusRule) (job : JobApplication) :
    Option StatusSuggestion :=
  if job.status ≠ rule.fromStatus then none
  else
    match rule.condition with
    | .timeElapsed =>
      match rule.timeDelay with
      | none => none
      | some delay =>
        if delay = 0 then none
        else
          match parseDateJS job.appliedDate with
          | none => none
          | some t =>
            let days := Int.fdiv (now - t) 86400000
            if days ≥ delay then
              some { jobId := job.id, currentStatus := job.status,
                     suggestedStatus := rule.toStatus,
                     reason := rule.name ++ reasonSep ++ intToStr days ++
                       reasonDaysApplication,
                     confidence := min (9 / 10 : ℚ)
                       (1 / 2 + ((days : ℚ) / (delay : ℚ)) * (2 / 5)),
                     autoApply := false }
            else none
    | .interviewDatePassed =>
      match job.interviewDate with
      | none => none
      | some ds =>
        if ds = [] then none
        else
          match rule.timeDelay with
          | none => none
          | some delay =>
            if delay = 0 then none
            else
              match parseDateJS ds with
              | none => none
              | some t =>
                let days := Int.fdiv (now - t) 86400000
                if days ≥ delay then
                  some { jobId := job.id, currentStatus := job.status,
                         suggestedStatus := rule.toStatus,
                         reason := rule.name ++ reasonSep ++ intToStr days ++
                           reasonDaysInterview,
                         confidence := min (19 / 20 : ℚ)
                           (3 / 5 + ((days : ℚ) / (delay : ℚ)) * (7 / 20)),
                         autoApply := false }
                else none
    | .manualTrigger => none

/-- `analyzeJobs(jobs)`: per record, per active rule, collect suggestions
and sort them by descending confidence (stably). -/
def analyzeJobs (now : Int) (rules : List StatusRule)
    (jobs : List JobApplication) : List StatusSuggestion :=
  let suggestions := jobs.flatMap (fun j =>
    (rules.filter (fun r => r.isActive)).filterMap (fun r => evalRule now r j))
  jsSort (fun a b => decide (b.confidence ≤ a.confidence)) suggestions

/-! ## Storage update (`schemas.ts`, `jobStorage.update`) -/

/-- A `Partial<JobApplication>`: a present field overrides the old value
wholesale (including optional fields, hence the nested `Option`s). -/
structure JobUpdate where
  id : Option Str
  company : Option Str
  role : Option Str
  salaryRange : Option (Option SalaryRange)
  workLocation : Option Str
  jobType : Option JobType
  workMode : Option WorkMode
  status : Option JobStatus
  interviewLink : Option (Option Str)
  appliedDate : Option Str
  notes : Option (Option Str)
  category : Option (Option Str)
  experienceLevel : Option (Option ExperienceLevel)
  jobPostingUrl : Option (Option Str)
  interviewDate : Option (Option Str)
  statusHistory : Option (Option (List StatusHistoryEntry))
  contacts : Option (Option (List Contact))
  documents : Option (Option (List JobDocument))
  followUpDate : Option (Option Str)
  priority : Option (Option JobPriority)
  archived : Option (Option Bool)
deriving DecidableEq, Repr

/-- An update touching no field. -/
def emptyUpdate : JobUpdate where
  id := none
  company := none
  role := none
  salaryRange := none
  workLocation := none
  jobType := none
  workMode := none
  status := none
  interviewLink := none
  appliedDate := none
  notes := none
  category := none
  experienceLevel := none
  jobPostingUrl := none
  interviewDate := none
  statusHistory := none
  contacts := none
  documents := none
  followUpDate := none
  priority := none
  archived := none

/-- The spread `{ ...oldApp, ...updates }`. -/
def mergeUpdate (old : JobApplication) (u : JobUpdate) : JobApplication where
  id := u.id.getD old.id
  company := u.company.getD old.company
  role := u.role.getD old.role
  salaryRange := u.salaryRange.getD old.salaryRange
  workLocation := u.workLocation.getD old.workLocation
  jobType := u.jobType.getD old.jobType
  workMode := u.workMode.getD old.workMode
  status := u.status.getD old.status
  interviewLink := u.interviewLink.getD old.interviewLink
  appliedDate := u.appliedDate.getD old.appliedDate
  notes := u.notes.getD old.notes
  category := u.category.getD old.category
  experienceLevel := u.experienceLevel.getD old.experienceLevel
  jobPostingUrl := u.jobPostingUrl.getD old.jobPostingUrl
  interviewDate := u.interviewDate.getD old.interviewDate
  statusHistory := u.statusHistory.getD old.statusHistory
  contacts := u.contacts.getD old.contacts
  documents := u.documents.getD old.documents
  followUpDate := u.followUpDate.getD old.followUpDate
  priority := u.priority.getD old.priority
  archived := u.archived.getD old.archived

def statusNoteFrom : Str := "Status changed from ".toList
def statusNoteTo : Str := " to ".toList

def statusNote (a b : JobStatus) : Str :=
  statusNoteFrom ++ statusStr a ++ statusNoteTo ++ statusStr b

/-- The body of `jobStorage.update` applied to the found record: merge
the partial update, and when the update carries a status different from
the old one, append one history entry (with the fresh UUID `newId` and
clock value `now`) to the *old* history. -/
def applyUpdate (old : JobApplication) (u : JobUpdate) (newId now : Str) :
    JobApplication :=
  let merged := mergeUpdate old u
  match u.status with
  | none => merged
  | some s =>
    if s ≠ old.status then
      { merged with
        statusHistory := some ((old.statusHistory.getD []) ++
          [{ id := newId, status := s, date := now,
             notes := some (statusNote old.status s) }]) }
    else merged

/-- `jobStorage.update(id, updates)` on the stored collection: the first
record whose id matches is replaced, everything else kept. -/
def jobStorageUpdate (apps : List JobApplication) (idq : Str)
    (u : JobUpdate) (newId now : Str) : List JobApplication :=
  match apps.findIdx? (fun a => decide (a.id = idq)) with
  | none => apps
  | some i =>
    match apps.get? i with
    | none => apps
    | some old => apps.set i (applyUpdate old u newId now)

/-! ## Generic list lemmas -/

theorem foldl_preserve {α β : Type _} (P : α → Prop) :
    ∀ (xs : List β) (f : α → β → α) (a : α), P a →
      (∀ a2 x, x ∈ xs → P a2 → P (f a2 x)) → P (xs.foldl f a)
  | [], _, _, ha, _ => ha
  | x :: xs, f, a, ha, hstep => by
    simp only [List.foldl_cons]
    exact foldl_preserve P xs f (f a x) (hstep a x (List.mem_cons_self x xs) ha)
      (fun a2 y hy => hstep a2 y (List.mem_cons_of_mem x hy))

theorem mem_foldl_filter (g : Str → Nat → Bool) :
    ∀ (ts : List Str) (init : List Nat) (i : Nat),
      (i ∈ ts.foldl (fun acc t => acc.filter (g t)) init ↔
        i ∈ init ∧ ∀ t ∈ ts, g t i = true)
  | [], init, i => by simp
  | t :: ts, init, i => by
    simp only [List.foldl_cons]
    rw [mem_foldl_filter g ts (init.filter (g t)) i]
    simp [List.mem_filter, and_assoc]

theorem get?_set_ne {α : Type _} :
    ∀ (l : List α) (i j : Nat) (a : α), i ≠ j → (l.set i a).get? j = l.get? j
  | [], _, _, _, _ => rfl
  | _ :: _, 0, 0, _, h => absurd rfl h
  | _ :: _, 0, _ + 1, _, _ => rfl
  | _ :: _, _ + 1, 0, _, _ => rfl
  | _ :: l, i + 1, j + 1, a, h =>
    get?_set_ne l i j a (fun hij => h (by rw [hij]))

theorem get?_set_self {α : Type _} :
    ∀ (l : List α) (i : Nat) (a : α), i < l.length → (l.set i a).get? i = some a
  | [], i, a, h => absurd h (Nat.not_lt_zero i)
  | x :: l, 0, a, _ => rfl
  | x :: l, i + 1, a, h =>
    get?_set_self l i a (Nat.lt_of_succ_lt_succ h)

/-! ## Trim and split lemmas -/

theorem jsTrim_eq_nil_iff (l : Str) :
    jsTrim l = [] ↔ ∀ c ∈ l, c.isWhitespace = true := by
  unfold jsTrim
  rw [List.reverse_eq_nil_iff, List.dropWhile_eq_nil_iff]
  constructor
  · intro h c hc
    have hdw : l.dropWhile Char.isWhitespace = [] := by
      rcases hdw : l.dropWhile Char.isWhitespace with _ | ⟨x, rest⟩
      · rfl
      · exfalso
        have hw : (x :: rest).length > 0 := by simp
        have hne : l.dropWhile Char.isWhitespace ≠ [] := by simp [hdw]
        have hx := List.head_dropWhile_not Char.isWhitespace l (by simpa using hne)
        have hxh : (l.dropWhile Char.isWhitespace).head (by simpa using hne) = x := by
          simp [hdw]
        rw [hxh] at hx
        have hxmem : x ∈ (l.dropWhile Char.isWhitespace).reverse := by
          rw [hdw]; simp
        rw [h x hxmem] at hx
        simp at hx
    exact List.dropWhile_eq_nil_iff.mp hdw c hc
  · intro h c hc
    exact h c (by
      have := List.dropWhile_sublist (l := l) Char.isWhitespace
      exact this.mem (List.mem_reverse.mp hc))

theorem jsSplitWs_ws_single (c : Char) (hc : c.isWhitespace = true) :
    jsSplitWs [c] = [[], []] := by
  simp [jsSplitWs, hc]

theorem jsSplitWs_ws_ws (c d : Char) (rest2 : Str) (hc : c.isWhitespace = true)
    (hd : d.isWhitespace = true) :
    jsSplitWs (c :: d :: rest2) = jsSplitWs (d :: rest2) := by
  simp [jsSplitWs, hc, hd]

theorem jsSplitWs_ws_not_ws (c d : Char) (rest2 : Str)
    (hc : c.isWhitespace = true) (hd : ¬ d.isWhitespace = true) :
    jsSplitWs (c :: d :: rest2) = [] :: jsSplitWs (d :: rest2) := by
  simp [jsSplitWs, hc, hd]

theorem jsSplitWs_cons_not_ws (c : Char) (rest : Str)
    (h : ¬ c.isWhitespace = true) (t : Str) (ts : List Str)
    (hsp : jsSplitWs rest = t :: ts) :
    jsSplitWs (c :: rest) = (c :: t) :: ts := by
  simp [jsSplitWs, h, hsp]

theorem jsSplitWs_ne_nil : ∀ l : Str, jsSplitWs l ≠ []
  | [] => by simp [jsSplitWs]
  | c :: rest => by
    by_cases hc : c.isWhitespace = true
    · rcases rest with _ | ⟨d, rest2⟩
      · rw [jsSplitWs_ws_single c hc]
        simp
      · by_cases hd : d.isWhitespace = true
        · rw [jsSplitWs_ws_ws c d rest2 hc hd]
          exact jsSplitWs_ne_nil (d :: rest2)
        · rw [jsSplitWs_ws_not_ws c d rest2 hc hd]
          simp
    · rcases hsp : jsSplitWs rest with _ | ⟨t, ts⟩
      · exact absurd hsp (jsSplitWs_ne_nil rest)
      · rw [jsSplitWs_cons_not_ws c rest hc t ts hsp]
        simp

/-- A leading whitespace character always contributes an empty token. -/
theorem mem_nil_jsSplitWs_head_ws :
    ∀ (c : Char) (rest : Str), c.isWhitespace = true →
      [] ∈ jsSplitWs (c :: rest)
  | c, [], h => by
    rw [jsSplitWs_ws_single c h]
    simp
  | c, d :: rest2, h => by
    by_cases hd : d.isWhitespace = true
    · rw [jsSplitWs_ws_ws c d rest2 h hd]
      exact mem_nil_jsSplitWs_head_ws d rest2 hd
    · rw [jsSplitWs_ws_not_ws c d rest2 h hd]
      exact List.mem_cons_self _ _

theorem getLast?_suffix {α : Type _} {s l : List α} (h : s <:+ l) (hs : s ≠ []) :
    l.getLast? = s.getLast? := by
  obtain ⟨pre, rfl⟩ := h
  exact List.getLast?_append_of_ne_nil pre hs

theorem getLast?_cons_ne {α : Type _} (a : α) (l : List α) (h : l ≠ []) :
    (a :: l).getLast? = l.getLast? := by
  rcases l with _ | ⟨b, l⟩
  · exact absurd rfl h
  · simp

theorem jsSplitWs_eq_single_nil : ∀ l : Str, jsSplitWs l = [[]] → l = []
  | [], _ => rfl
  | [c], h => by
    exfalso
    by_cases hc : c.isWhitespace = true
    · rw [jsSplitWs_ws_single c hc] at h
      simp at h
    · have hone : jsSplitWs [c] = [[c]] := by simp [jsSplitWs, hc]
      rw [hone] at h
      simp at h
  | c :: d :: rest2, h => by
    exfalso
    by_cases hc : c.isWhitespace = true
    · by_cases hd : d.isWhitespace = true
      · rw [jsSplitWs_ws_ws c d rest2 hc hd] at h
        have := jsSplitWs_eq_single_nil (d :: rest2) h
        simp at this
      · rw [jsSplitWs_ws_not_ws c d rest2 hc hd] at h
        simp at h
        exact jsSplitWs_ne_nil (d :: rest2) h
    · rcases hsp : jsSplitWs (d :: rest2) with _ | ⟨t, ts⟩
      · exact jsSplitWs_ne_nil _ hsp
      · rw [jsSplitWs_cons_not_ws c (d :: rest2) hc t ts hsp] at h
        simp at h

/-- A string ending in whitespace splits with a trailing empty token. -/
theorem jsSplitWs_getLast : ∀ (l : Str) (c : Char), l.getLast? = some c →
    c.isWhitespace = true → (jsSplitWs l).getLast? = some []
  | [], c, hlast, _ => by simp at hlast
  | [d], c, hlast, hws => by
    simp at hlast
    subst hlast
    rw [jsSplitWs_ws_single d hws]
    rfl
  | d :: e :: rest2, c, hlast, hws => by
    have hlr : (e :: rest2).getLast? = some c := by
      rwa [List.getLast?_cons_cons] at hlast
    have ih := jsSplitWs_getLast (e :: rest2) c hlr hws
    by_cases hd : d.isWhitespace = true
    · by_cases he : e.isWhitespace = true
      · rw [jsSplitWs_ws_ws d e rest2 hd he]
        exact ih
      · rw [jsSplitWs_ws_not_ws d e rest2 hd he]
        rw [getLast?_cons_ne _ _ (jsSplitWs_ne_nil _)]
        exact ih
    · rcases hsp : jsSplitWs (e :: rest2) with _ | ⟨t, ts⟩
      · exact absurd hsp (jsSplitWs_ne_nil _)
      · rw [jsSplitWs_cons_not_ws d (e :: rest2) hd t ts hsp]
        rcases hts : ts with _ | ⟨t2, ts2⟩
        · exfalso
          rw [hsp, hts] at ih
          simp at ih
          have h0 : jsSplitWs (e :: rest2) = [[]] := by rw [hsp, hts, ih]
          have := jsSplitWs_eq_single_nil (e :: rest2) h0
          simp at this
        · subst hts
          rw [getLast?_cons_ne _ _ (by simp)]
          rw [hsp, getLast?_cons_ne _ _ (by simp)] at ih
          exact ih


theorem toLower_ws (c : Char) (h : c.isWhitespace = true) : c.toLower = c := by
  have hc : c = ' ' ∨ c = '\t' ∨ c = '\r' ∨ c = '\n' := by
    simp [Char.isWhitespace] at h
    tauto
  rcases hc with rfl | rfl | rfl | rfl <;> decide

/-! ## Index invariants -/

/-- Every key of the inverted index is a non-empty string. -/
def keysNonEmpty (idx : SearchIndex) : Prop := ∀ p ∈ idx, p.1 ≠ []

theorem idxInsert_keysNonEmpty {idx : SearchIndex} {k : Str} (i : Nat)
    (h : keysNonEmpty idx) (hk : k ≠ []) : keysNonEmpty (idxInsert idx k i) := by
  induction idx with
  | nil =>
    intro p hp
    simp [idxInsert] at hp
    rw [hp]
    exact hk
  | cons q rest ih =>
    obtain ⟨k2, v⟩ := q
    intro p hp
    rw [idxInsert] at hp
    split at hp
    · rcases List.mem_cons.mp hp with rfl | hmem
      · exact h (k2, v) (List.mem_cons_self (k2, v) rest)
      · exact h p (List.mem_cons_of_mem (k2, v) hmem)
    · rcases List.mem_cons.mp hp with rfl | hmem
      · exact h (k2, v) (List.mem_cons_self (k2, v) rest)
      · exact ih (fun r hr => h r (List.mem_cons_of_mem (k2, v) hr)) p hmem

theorem addWord_keysNonEmpty {idx : SearchIndex} {w : Str} (i : Nat)
    (h : keysNonEmpty idx) (hw : w ≠ []) : keysNonEmpty (addWord idx w i) := by
  unfold addWord
  apply foldl_preserve keysNonEmpty
  · exact idxInsert_keysNonEmpty i h hw
  · intro a p hp ha
    apply idxInsert_keysNonEmpty i ha
    unfold wordSlices at hp
    obtain ⟨n, _, rfl⟩ := List.mem_map.mp hp
    intro htake
    rcases List.take_eq_nil_iff.mp htake with h0 | h0
    · exact absurd h0 (Nat.succ_ne_zero n)
    · exact hw h0

theorem indexJob_keysNonEmpty {idx : SearchIndex} (i : Nat) (j : JobApplication)
    (h : keysNonEmpty idx) : keysNonEmpty (indexJob idx i j) := by
  unfold indexJob
  apply foldl_preserve keysNonEmpty _ _ _ h
  intro a w _ ha
  split
  · next hw =>
    exact addWord_keysNonEmpty i ha (by
      intro h0
      rw [h0] at hw
      simp at hw)
  · exact ha

theorem createSearchIndex_keysNonEmpty (jobs : List JobApplication) :
    keysNonEmpty (createSearchIndex jobs) := by
  unfold createSearchIndex
  apply foldl_preserve keysNonEmpty
  · intro p hp
    simp at hp
  · intro a p _ ha
    exact indexJob_keysNonEmpty p.1 p.2 ha

theorem idxLookup_nil_eq_none {idx : SearchIndex} (h : keysNonEmpty idx) :
    idxLookup idx [] = none := by
  induction idx with
  | nil => rfl
  | cons q rest ih =>
    rw [idxLookup]
    rw [if_neg (h q (List.mem_cons_self q rest))]
    exact ih (fun r hr => h r (List.mem_cons_of_mem q hr))

/-- Membership in the intersection computed by `searchWithIndex`. -/
theorem mem_intersectTerms {idx : SearchIndex} {terms : List Str}
    {inter : List Nat} (h : intersectTerms idx terms = some inter) (i : Nat) :
    i ∈ inter ↔ ∀ t ∈ terms, i ∈ (idxLookup idx t).getD [] := by
  rcases terms with _ | ⟨t, ts⟩
  · simp [intersectTerms] at h
  · rw [intersectTerms] at h
    have hi := mem_foldl_filter
      (fun t2 n => decide (n ∈ (idxLookup idx t2).getD [])) ts
      ((idxLookup idx t).getD []) i
    rw [Option.some_inj.mp h] at hi
    rw [hi]
    simp

/-! ## Stable insertion sort: permutation, sortedness, uniqueness -/

theorem insertStable_perm (le : α → α → Bool) (x : α) :
    ∀ l : List α, List.Perm (insertStable le x l) (x :: l)
  | [] => List.Perm.refl _
  | y :: ys => by
    rw [insertStable]
    split
    · exact ((insertStable_perm le x ys).cons y).trans (List.Perm.swap x y ys)
    · exact List.Perm.refl _

theorem mem_insertStable (le : α → α → Bool) (x a : α) (l : List α) :
    a ∈ insertStable le x l ↔ a = x ∨ a ∈ l := by
  rw [(insertStable_perm le x l).mem_iff]
  simp

theorem insertStable_pairwise (le : α → α → Bool) (P : α → Prop)
    (htot : ∀ a b, P a → P b → le a b = true ∨ le b a = true)
    (htrans : ∀ a b c, P a → P b → P c →
      le a b = true → le b c = true → le a c = true) (x : α) (hx : P x) :
    ∀ l : List α, (∀ a ∈ l, P a) → l.Pairwise (fun a b => le a b = true) →
      (insertStable le x l).Pairwise (fun a b => le a b = true)
  | [], _, _ => List.pairwise_singleton _ x
  | y :: ys, hl, hp => by
    have hy : P y := hl y (List.mem_cons_self y ys)
    have hys : ∀ a ∈ ys, P a := fun a ha => hl a (List.mem_cons_of_mem y ha)
    rcases List.pairwise_cons.mp hp with ⟨hyle, hpys⟩
    rw [insertStable]
    split
    · next hle =>
      refine List.pairwise_cons.mpr ⟨?_, ?_⟩
      · intro b hb
        rcases (mem_insertStable le x b ys).mp hb with rfl | hmem
        · exact hle
        · exact hyle b hmem
      · exact insertStable_pairwise le P htot htrans x hx ys hys hpys
    · next hle =>
      have hxy : le x y = true := by
        rcases htot x y hx hy with h1 | h1
        · exact h1
        · exact absurd h1 hle
      refine List.pairwise_cons.mpr ⟨?_, hp⟩
      intro b hb
      rcases List.mem_cons.mp hb with rfl | hmem
      · exact hxy
      · exact htrans x y b hx hy (hys b hmem) hxy (hyle b hmem)

theorem jsSort_perm_aux (le : α → α → Bool) :
    ∀ (l acc : List α),
      List.Perm (l.foldl (fun acc x => insertStable le x acc) acc) (acc ++ l)
  | [], acc => by simp
  | x :: l, acc => by
    rw [List.foldl_cons]
    refine (jsSort_perm_aux le l (insertStable le x acc)).trans ?_
    refine (((insertStable_perm le x acc).append_right l).trans ?_)
    simpa using List.perm_middle.symm

theorem jsSort_perm (le : α → α → Bool) (l : List α) : List.Perm (jsSort le l) l := by
  simpa using jsSort_perm_aux le l []

theorem jsSort_pairwise (le : α → α → Bool) (P : α → Prop)
    (htot : ∀ a b, P a → P b → le a b = true ∨ le b a = true)
    (htrans : ∀ a b c, P a → P b → P c →
      le a b = true → le b c = true → le a c = true) :
    ∀ (l acc : List α), (∀ a ∈ l, P a) → (∀ a ∈ acc, P a) →
      acc.Pairwise (fun a b => le a b = true) →
      (l.foldl (fun acc x => insertStable le x acc) acc).Pairwise
        (fun a b => le a b = true)
  | [], _, _, _, hacc => hacc
  | x :: l, acc, hl, haccP, hacc => by
    rw [List.foldl_cons]
    have hx : P x := hl x (List.mem_cons_self x l)
    refine jsSort_pairwise le P htot htrans l (insertStable le x acc)
      (fun a ha => hl a (List.mem_cons_of_mem x ha)) ?_ ?_
    · intro a ha
      rcases (mem_insertStable le x a acc).mp ha with rfl | hmem
      · exact hx
      · exact haccP a hmem
    · exact insertStable_pairwise le P htot htrans x hx acc haccP hacc

theorem jsSort_sorted (le : α → α → Bool) (P : α → Prop)
    (htot : ∀ a b, P a → P b → le a b = true ∨ le b a = true)
    (htrans : ∀ a b c, P a → P b → P c →
      le a b = true → le b c = true → le a c = true)
    (l : List α) (hl : ∀ a ∈ l, P a) :
    (jsSort le l).Pairwise (fun a b => le a b = true) :=
  jsSort_pairwise le P htot htrans l [] hl (by simp) (List.Pairwise.nil)

/-- Two sorted permutations of the same list coincide, provided the
relation is antisymmetric on the elements involved. -/
theorem sorted_perm_unique (r : α → α → Bool) :
    ∀ (l1 l2 : List α), List.Perm l1 l2 →
      l1.Pairwise (fun a b => r a b = true) →
      l2.Pairwise (fun a b => r a b = true) →
      (∀ a b, a ∈ l1 → b ∈ l1 → r a b = true → r b a = true → a = b) →
      l1 = l2
  | [], l2, hperm, _, _, _ => (hperm.nil_eq).symm ▸ rfl
  | a :: t1, l2, hperm, hp1, hp2, hanti => by
    rcases l2 with _ | ⟨b, t2⟩
    · exact absurd hperm.symm.nil_eq (by simp)
    · have hab : a = b := by
        by_contra hne
        have hbmem : b ∈ a :: t1 := hperm.symm.subset (List.mem_cons_self b t2)
        have hbt1 : b ∈ t1 := by
          rcases List.mem_cons.mp hbmem with rfl | h
          · exact absurd rfl hne
          · exact h
        have hamem : a ∈ b :: t2 := hperm.subset (List.mem_cons_self a t1)
        have hat2 : a ∈ t2 := by
          rcases List.mem_cons.mp hamem with h | h
          · exact absurd h hne
          · exact h
        have hrab : r a b = true := (List.pairwise_cons.mp hp1).1 b hbt1
        have hrba : r b a = true := (List.pairwise_cons.mp hp2).1 a hat2
        exact hne (hanti a b (List.mem_cons_self a t1)
          (List.mem_cons_of_mem a hbt1) hrab hrba)
      subst hab
      have hperm2 : List.Perm t1 t2 := hperm.cons_inv
      have heq : t1 = t2 := sorted_perm_unique r t1 t2 hperm2
        (List.pairwise_cons.mp hp1).2 (List.pairwise_cons.mp hp2).2
        (fun x y hx hy => hanti x y (List.mem_cons_of_mem a hx)
          (List.mem_cons_of_mem a hy))
      rw [heq]

theorem mem_of_getLast?_eq {α : Type _} :
    ∀ (l : List α) (a : α), l.getLast? = some a → a ∈ l
  | [], a, h => by simp at h
  | [x], a, h => by
    simp at h
    simp [h]
  | x :: y :: l, a, h => by
    rw [List.getLast?_cons_cons] at h
    exact List.mem_cons_of_mem x (mem_of_getLast?_eq (y :: l) a h)

/-! ## Behaviour of `searchWithIndex` on a non-blank query -/

/-- Membership characterization of an indexed search on a query whose
trimmed form is non-empty. -/
theorem mem_searchWithIndex (jobs : List JobApplication) (q : Str)
    (idx : SearchIndex) (ht : jsTrim q ≠ []) (r : JobApplication) :
    r ∈ searchWithIndex q jobs idx ↔
      ∃ i, jobs.get? i = some r ∧
        ∀ t ∈ jsSplitWs (toLowerStr q), i ∈ (idxLookup idx t).getD [] := by
  have hsome : ∃ inter,
      intersectTerms idx (jsSplitWs (toLowerStr q)) = some inter := by
    rcases hterms : jsSplitWs (toLowerStr q) with _ | ⟨t, ts⟩
    · exact absurd hterms (jsSplitWs_ne_nil _)
    · exact ⟨_, rfl⟩
  obtain ⟨inter, hint⟩ := hsome
  have hres : searchWithIndex q jobs idx =
      inter.filterMap (fun i => jobs.get? i) := by
    rw [searchWithIndex, if_neg ht, hint]
  rw [hres, List.mem_filterMap]
  constructor
  · rintro ⟨i, hi, hgi⟩
    exact ⟨i, hgi, (mem_intersectTerms hint i).mp hi⟩
  · rintro ⟨i, hgi, hall⟩
    exact ⟨i, (mem_intersectTerms hint i).mpr hall, hgi⟩

/-- A query term with no posting set forces an empty indexed-search
result (on a query whose trimmed form is non-empty). -/
theorem searchWithIndex_empty_of_dead_term (jobs : List JobApplication)
    (q : Str) (idx : SearchIndex) (ht : jsTrim q ≠ []) (t : Str)
    (htm : t ∈ jsSplitWs (toLowerStr q)) (hnone : idxLookup idx t = none) :
    searchWithIndex q jobs idx = [] := by
  rw [List.eq_nil_iff_forall_not_mem]
  intro r hr
  obtain ⟨i, _, hall⟩ := (mem_searchWithIndex jobs q idx ht r).mp hr
  have := hall t htm
  rw [hnone] at this
  simp at this

/-- Every indexed-search result element comes from the input list. -/
theorem searchWithIndex_subset (jobs : List JobApplication) (q : Str)
    (idx : SearchIndex) (r : JobApplication)
    (hr : r ∈ searchWithIndex q jobs idx) : r ∈ jobs := by
  by_cases ht : jsTrim q = []
  · rw [searchWithIndex, if_pos ht] at hr
    exact hr
  · rw [searchWithIndex, if_neg ht] at hr
    rcases hint : intersectTerms idx (jsSplitWs (toLowerStr q)) with _ | inter
    · rw [hint] at hr
      simp at hr
    · rw [hint] at hr
      simp only [List.mem_filterMap] at hr
      obtain ⟨i, _, hgi⟩ := hr
      exact List.get?_mem hgi

/-- Claim C1 (amended): for every record list and query,
`searchWithIndex(query, records, buildIndex(records))` returns a subset
of the records; and provided the query's trimmed form is non-empty, a
record is included iff its position lies in the intersection of the
posting sets of every lower-cased whitespace-separated query term, and a
query term with no index entry forces the empty result (strict AND).
(The original claim, quantified over *every* query string, fails on
whitespace-only queries, which return the whole input.) -/
theorem searchWithIndex_strict_and (jobs : List JobApplication) (q : Str) :
    (∀ r ∈ searchWithIndex q jobs (createSearchIndex jobs), r ∈ jobs) ∧
    (jsTrim q ≠ [] →
      ((∀ r, r ∈ searchWithIndex q jobs (createSearchIndex jobs) ↔
          ∃ i, jobs.get? i = some r ∧
            ∀ t ∈ jsSplitWs (toLowerStr q),
              i ∈ (idxLookup (createSearchIndex jobs) t).getD []) ∧
       ((∃ t ∈ jsSplitWs (toLowerStr q),
            idxLookup (createSearchIndex jobs) t = none) →
          searchWithIndex q jobs (createSearchIndex jobs) = []))) := by
  refine ⟨fun r hr => searchWithIndex_subset jobs q _ r hr, fun ht => ⟨?_, ?_⟩⟩
  · exact fun r => mem_searchWithIndex jobs q _ ht r
  · rintro ⟨t, htm, hnone⟩
    exact searchWithIndex_empty_of_dead_term jobs q _ ht t htm hnone

/-- Witness for C1: concrete instance with the hypothesis discharged. -/
theorem searchWithIndex_strict_and_witness :
    searchWithIndex (['a']) ([] : List JobApplication)
      (createSearchIndex []) = [] :=
  ((searchWithIndex_strict_and [] (['a'])).2 (by decide)).2
    ⟨['a'], by decide, by decide⟩

/-- Counterexample to C1 as stated: on the whitespace-only query `" "`
the empty-string term has no index entry, yet the search returns the
whole input, not the empty list. -/
theorem searchWithIndex_whitespace_cex :
    ([] ∈ jsSplitWs (toLowerStr [' '])) ∧
    idxLookup (createSearchIndex [baseJob]) [] = none ∧
    searchWithIndex [' '] [baseJob] (createSearchIndex [baseJob]) =
      [baseJob] := by
  refine ⟨by decide, ?_, by decide⟩
  exact idxLookup_nil_eq_none (createSearchIndex_keysNonEmpty [baseJob])

/-- Claim C8: a query that is empty or all whitespace is an identity for
both search strategies. -/
theorem search_empty_query_identity (jobs : List JobApplication) (q : Str)
    (idx : SearchIndex) (h : ∀ c ∈ q, c.isWhitespace = true) :
    searchJobs jobs q = jobs ∧ searchWithIndex q jobs idx = jobs := by
  have ht : jsTrim q = [] := (jsTrim_eq_nil_iff q).mpr h
  constructor
  · rw [searchJobs, if_pos ht]
  · rw [searchWithIndex, if_pos ht]

/-- Witness for C8. -/
theorem search_empty_query_identity_witness :
    searchJobs [baseJob] ([' ']) = [baseJob] ∧
    searchWithIndex ([' ']) [baseJob] (createSearchIndex [baseJob]) =
      [baseJob] :=
  search_empty_query_identity [baseJob] ([' ']) (createSearchIndex [baseJob])
    (by decide)

/-- Claim C10: a query whose trimmed form is non-empty but which begins
or ends with whitespace produces an empty-string term; the index only
holds non-empty keys, so the indexed search returns the empty list. -/
theorem searchWithIndex_untrimmed_empty (jobs : List JobApplication)
    (q : Str) (ht : jsTrim q ≠ [])
    (hedge : (∃ c rest, q = c :: rest ∧ c.isWhitespace = true) ∨
             (∃ c, q.getLast? = some c ∧ c.isWhitespace = true)) :
    searchWithIndex q jobs (createSearchIndex jobs) = [] := by
  have hmem : [] ∈ jsSplitWs (toLowerStr q) := by
    rcases hedge with ⟨c, rest, rfl, hws⟩ | ⟨c, hlast, hws⟩
    · have hmap : toLowerStr (c :: rest) = c :: toLowerStr rest := by
        rw [toLowerStr, List.map_cons, toLower_ws c hws]
        rfl
      rw [hmap]
      exact mem_nil_jsSplitWs_head_ws c (toLowerStr rest) hws
    · have hq : q ≠ [] := by
        intro h0
        rw [h0] at hlast
        simp at hlast
      have hlast2 : (toLowerStr q).getLast? = some c := by
        rw [toLowerStr, List.getLast?_eq_head?_reverse, ← List.map_reverse,
          List.head?_map, ← List.getLast?_eq_head?_reverse, hlast]
        simp [toLower_ws c hws]
      exact mem_of_getLast?_eq _ []
        (jsSplitWs_getLast (toLowerStr q) c hlast2 hws)
  exact searchWithIndex_empty_of_dead_term jobs q _ ht [] hmem
    (idxLookup_nil_eq_none (createSearchIndex_keysNonEmpty jobs))

def acmeTrailing : Str := "acme ".toList

/-- Witness for C10: the query `"acme "` matches nothing even though the
record's company is Acme. -/
theorem searchWithIndex_untrimmed_empty_witness :
    searchWithIndex acmeTrailing [baseJob] (createSearchIndex [baseJob]) =
      [] :=
  searchWithIndex_untrimmed_empty [baseJob] acmeTrailing (by decide)
    (Or.inr ⟨' ', by decide, by decide⟩)

/-! ## Storage update (claim C7) -/

/-- Claim C7: updating a stored record with a status different from its
current one keeps the collection's length, leaves every other position
untouched, and replaces the found record by the merged record whose
status history is the old history with exactly one new entry (carrying
the new status) appended. -/
theorem jobStorageUpdate_appends (apps : List JobApplication) (idq : Str)
    (u : JobUpdate) (s : JobStatus) (newId now : Str) (i : Nat)
    (old : JobApplication) (hs : u.status = some s)
    (hfind : apps.findIdx? (fun a => decide (a.id = idq)) = some i)
    (hget : apps.get? i = some old) (hne : old.status ≠ s) :
    (jobStorageUpdate apps idq u newId now).length = apps.length ∧
    (∀ j, j ≠ i →
      (jobStorageUpdate apps idq u newId now).get? j = apps.get? j) ∧
    (jobStorageUpdate apps idq u newId now).get? i =
      some { mergeUpdate old u with
        statusHistory := some ((old.statusHistory.getD []) ++
          [{ id := newId, status := s, date := now,
             notes := some (statusNote old.status s) }]) } := by
  have hupd : jobStorageUpdate apps idq u newId now =
      apps.set i (applyUpdate old u newId now) := by
    simp only [jobStorageUpdate, hfind, hget]
  have happ : applyUpdate old u newId now =
      { mergeUpdate old u with
        statusHistory := some ((old.statusHistory.getD []) ++
          [{ id := newId, status := s, date := now,
             notes := some (statusNote old.status s) }]) } := by
    rw [applyUpdate, hs]
    simp only
    rw [if_pos (fun h => hne h.symm)]
  have hbound : i < apps.length := by
    obtain ⟨hlt, _⟩ := List.get?_eq_some.mp hget
    exact hlt
  refine ⟨?_, ?_, ?_⟩
  · rw [hupd, List.length_set]
  · intro j hj
    rw [hupd]
    exact get?_set_ne apps i j _ (fun h => hj h.symm)
  · rw [hupd, get?_set_self apps i _ hbound, happ]

def wJob2 : JobApplication :=
  { baseJob with id := "j2".toList, company := "Globex".toList }

def statusUpdate : JobUpdate := { emptyUpdate with status := some .interview }

def newHistId : Str := "h-1".toList
def newHistDate : Str := "2024-02-02".toList

/-- Witness for C7 on a concrete two-record store. -/
theorem jobStorageUpdate_appends_witness :
    (jobStorageUpdate [baseJob, wJob2] baseJob.id statusUpdate newHistId
      newHistDate).length = ([baseJob, wJob2] : List JobApplication).length ∧
    (jobStorageUpdate [baseJob, wJob2] baseJob.id statusUpdate newHistId
      newHistDate).get? 1 = some wJob2 ∧
    (jobStorageUpdate [baseJob, wJob2] baseJob.id statusUpdate newHistId
      newHistDate).get? 0 =
      some { mergeUpdate baseJob statusUpdate with
        statusHistory := some ((baseJob.statusHistory.getD []) ++
          [{ id := newHistId, status := .interview, date := newHistDate,
             notes := some (statusNote baseJob.status .interview) }]) } := by
  have h := jobStorageUpdate_appends [baseJob, wJob2] baseJob.id statusUpdate
    .interview newHistId newHistDate 0 baseJob rfl (by decide) rfl
    (by decide)
  exact ⟨h.1, (h.2.1 1 (by decide)).trans (by decide), h.2.2⟩

/-! ## Linear search (claim C2) -/

/-- The linear-search blob as the specification's field list describes it
(refinement comparison with `linearParts`): company, role, location,
category, notes, status, type, mode, level, plus contact
names/titles/emails and document names — without the salary currency the
code also includes. -/
def specLinearParts (j : JobApplication) : List (Option Str) :=
  [some j.company, some j.role, some j.workLocation, j.category, j.notes,
   some (statusStr j.status), some (jobTypeStr j.jobType),
   some (workModeStr j.workMode), j.experienceLevel.map levelStr]
  ++ ((j.contacts.getD []).flatMap
      (fun c => ([some c.name, c.title, c.email].filterMap id).filter
        (fun s => decide (s ≠ [])))).map some
  ++ ((j.documents.getD []).map (fun d => some d.name))

def blobLinearSpec (j : JobApplication) : Str := blobOf (specLinearParts j)

/-- Claim C2 (amended): on a query whose trimmed form is non-empty,
`searchJobs` lower-cases the query, tokenizes it on single spaces
discarding empty terms, and returns exactly the records whose blob —
which also includes the salary currency — contains every term as a
substring.  (Amended twice: the code's blob includes
`salaryRange.currency`, and a whitespace-only query short-circuits to
the identity instead of being filtered.) -/
theorem searchJobs_substring_spec (jobs : List JobApplication) (q : Str)
    (ht : jsTrim q ≠ []) :
    searchJobs jobs q = jobs.filter
      (fun j => (spaceTerms q).all (fun t => strContains (blobLinear j) t)) ∧
    (∀ r, r ∈ searchJobs jobs q ↔
      r ∈ jobs ∧ ∀ t ∈ spaceTerms q, strContains (blobLinear r) t = true) := by
  constructor
  · rw [searchJobs, if_neg ht]
  · intro r
    rw [searchJobs, if_neg ht, List.mem_filter, List.all_eq_true]

def usdQuery : Str := "usd".toList
def usdCurrency : Str := "USD".toList
def tabQuery : Str := ['\t']

def usdJob : JobApplication :=
  { baseJob with
    company := "Globex".toList, role := "Dev".toList,
    workLocation := "KL".toList,
    salaryRange := some { min := none, max := none,
                          currency := some usdCurrency } }

/-- Witness for C2. -/
theorem searchJobs_substring_spec_witness :
    searchJobs [usdJob] usdQuery =
      ([usdJob] : List JobApplication).filter
        (fun j => (spaceTerms usdQuery).all
          (fun t => strContains (blobLinear j) t)) :=
  (searchJobs_substring_spec [usdJob] usdQuery (by decide)).1

/-- Counterexample to C2 as stated: (1) a record whose salary currency is
"USD" is returned for the query "usd", though the claim's blob (without
currency) does not contain that substring; (2) the whitespace-only query
consisting of one tab returns every record, though its term is not a
substring of the record's blob. -/
theorem searchJobs_blob_cex :
    (searchJobs [usdJob] usdQuery = [usdJob] ∧
     ((spaceTerms usdQuery).all
       (fun t => strContains (blobLinearSpec usdJob) t)) = false) ∧
    (searchJobs [baseJob] tabQuery = [baseJob] ∧
     ((spaceTerms tabQuery).all
       (fun t => strContains (blobLinear baseJob) t)) = false) := by
  decide

/-! ## Filter (claims C3, C4, C5) -/

theorem jobPasses_iff (f : FilterOptions) (j : JobApplication) :
    jobPasses f j = true ↔
      (failsEnum f.status (statusStr j.status) = false ∧
       failsEnum f.jobType (jobTypeStr j.jobType) = false ∧
       failsEnum f.workMode (workModeStr j.workMode) = false ∧
       failsEnumOpt f.experienceLevel (j.experienceLevel.map levelStr) = false ∧
       failsEnumOpt f.priority (j.priority.map priorityStr) = false ∧
       failsEnumOpt f.category j.category = false ∧
       failsLocation f.location j = false ∧
       failsSalary f.salaryRange j = false ∧
       failsDate f.dateRange j = false ∧
       failsHasInterview f.hasInterview j = false ∧
       failsArchived f.archived j = false) := by
  unfold jobPasses
  generalize failsEnum f.status (statusStr j.status) = b1
  generalize failsEnum f.jobType (jobTypeStr j.jobType) = b2
  generalize failsEnum f.workMode (workModeStr j.workMode) = b3
  generalize failsEnumOpt f.experienceLevel (j.experienceLevel.map levelStr) = b4
  generalize failsEnumOpt f.priority (j.priority.map priorityStr) = b5
  generalize failsEnumOpt f.category j.category = b6
  generalize failsLocation f.location j = b7
  generalize failsSalary f.salaryRange j = b8
  generalize failsDate f.dateRange j = b9
  generalize failsHasInterview f.hasInterview j = b10
  generalize failsArchived f.archived j = b11
  cases b1 with
  | true => simp
  | false =>
    cases b2 with
    | true => simp
    | false =>
      cases b3 with
      | true => simp
      | false =>
        cases b4 with
        | true => simp
        | false =>
          cases b5 with
          | true => simp
          | false =>
            cases b6 with
            | true => simp
            | false =>
              cases b7 with
              | true => simp
              | false =>
                cases b8 with
                | true => simp
                | false =>
                  cases b9 with
                  | true => simp
                  | false =>
                    cases b10 with
                    | true => simp
                    | false =>
                      cases b11 with
                      | true => simp
                      | false => simp

theorem failsEnum_unconstraining {fld : Option Str}
    (h : fld = none ∨ fld = some allStr) (v : Str) : failsEnum fld v = false := by
  rcases h with rfl | rfl
  · rfl
  · simp [failsEnum]

theorem failsEnumOpt_unconstraining {fld : Option Str}
    (h : fld = none ∨ fld = some allStr) (v : Option Str) :
    failsEnumOpt fld v = false := by
  rcases h with rfl | rfl
  · rfl
  · simp [failsEnumOpt]

/-- Claim C3 (amended): the filter returns exactly the records passing
every per-field predicate; an unset field imposes no constraint, and the
"all" sentinel imposes none on the six enum-like fields (status, type,
mode, level, priority, category) — but *not* on location, where "all" is
an ordinary substring.  A spec whose enum-like fields are unset or "all"
and whose other fields are unset returns the input unchanged. -/
theorem filterJobs_spec :
    (∀ (jobs : List JobApplication) (f : FilterOptions) (j : JobApplication),
      j ∈ filterJobs jobs f ↔ j ∈ jobs ∧
        (failsEnum f.status (statusStr j.status) = false ∧
         failsEnum f.jobType (jobTypeStr j.jobType) = false ∧
         failsEnum f.workMode (workModeStr j.workMode) = false ∧
         failsEnumOpt f.experienceLevel (j.experienceLevel.map levelStr) = false ∧
         failsEnumOpt f.priority (j.priority.map priorityStr) = false ∧
         failsEnumOpt f.category j.category = false ∧
         failsLocation f.location j = false ∧
         failsSalary f.salaryRange j = false ∧
         failsDate f.dateRange j = false ∧
         failsHasInterview f.hasInterview j = false ∧
         failsArchived f.archived j = false)) ∧
    (∀ (jobs : List JobApplication) (f : FilterOptions),
      (f.status = none ∨ f.status = some allStr) →
      (f.jobType = none ∨ f.jobType = some allStr) →
      (f.workMode = none ∨ f.workMode = some allStr) →
      (f.experienceLevel = none ∨ f.experienceLevel = some allStr) →
      (f.priority = none ∨ f.priority = some allStr) →
      (f.category = none ∨ f.category = some allStr) →
      f.location = none → f.salaryRange = none → f.dateRange = none →
      f.hasInterview = none → f.archived = none →
      filterJobs jobs f = jobs) := by
  constructor
  · intro jobs f j
    rw [filterJobs, List.mem_filter, jobPasses_iff]
  · intro jobs f h1 h2 h3 h4 h5 h6 hloc hsal hdate hint harch
    rw [filterJobs, List.filter_eq_self]
    intro j _
    refine (jobPasses_iff f j).mpr
      ⟨failsEnum_unconstraining h1 _, failsEnum_unconstraining h2 _,
       failsEnum_unconstraining h3 _, failsEnumOpt_unconstraining h4 _,
       failsEnumOpt_unconstraining h5 _, failsEnumOpt_unconstraining h6 _,
       ?_, ?_, ?_, ?_, ?_⟩
    · rw [hloc]
      rfl
    · rw [hsal]
      rfl
    · rw [hdate]
      rfl
    · rw [hint]
      rfl
    · rw [harch]
      rfl

def allAllFilters : FilterOptions :=
  { emptyFilters with
    status := some allStr, jobType := some allStr, workMode := some allStr,
    experienceLevel := some allStr, priority := some allStr,
    category := some allStr }

/-- Witness for C3. -/
theorem filterJobs_spec_witness :
    filterJobs [baseJob] allAllFilters = [baseJob] :=
  filterJobs_spec.2 [baseJob] allAllFilters (Or.inr rfl) (Or.inr rfl)
    (Or.inr rfl) (Or.inr rfl) (Or.inr rfl) (Or.inr rfl) rfl rfl rfl rfl rfl

def locationAllFilters : FilterOptions :=
  { emptyFilters with location := some allStr }

/-- Counterexample to C3 as stated: a filter whose only set field is
`location = "all"` excludes a record located in NYC instead of imposing
no constraint. -/
theorem filterJobs_location_all_cex :
    filterJobs [baseJob] locationAllFilters = [] ∧
    filterJobs [baseJob] emptyFilters = [baseJob] := by
  decide

def noSalaryData (j : JobApplication) : Prop :=
  j.salaryRange = none ∨
    ∃ sr, j.salaryRange = some sr ∧ (sr.min = none ∨ sr.min = some []) ∧
      (sr.max = none ∨ sr.max = some [])

theorem jobMinSalary_noData (j : JobApplication) (h : noSalaryData j) :
    jobMinSalary j = some 0 := by
  unfold jobMinSalary
  rcases h with h | ⟨sr, hsr, hmin, _⟩
  · simp only [h]
  · simp only [hsr]
    rcases hmin with hmin | hmin <;> simp [hmin]

theorem jobMaxSalary_noData (j : JobApplication) (h : noSalaryData j) :
    jobMaxSalary j = some 999999 := by
  unfold jobMaxSalary
  rcases h with h | ⟨sr, hsr, _, hmax⟩
  · simp only [h]
  · simp only [hsr]
    rcases hmax with hmax | hmax <;> simp [hmax]

/-- Claim C4 (amended): a record with no salary data is treated as
spanning [0, 999999], so a salary filter whose range meets that interval
(min ≤ 999999 and max ≥ 0) never excludes it; the salary predicate plays
no part in the record's fate under such a filter.  (The original
"never causes exclusion" fails for filter ranges lying entirely above
999999 or below 0.) -/
theorem filterJobs_no_salary (f : FilterOptions) (j : JobApplication)
    (mn mx : Int) (hf : f.salaryRange = some (mn, mx)) (hns : noSalaryData j)
    (hmn : mn ≤ 999999) (hmx : 0 ≤ mx) :
    failsSalary f.salaryRange j = false ∧
    jobPasses f j = jobPasses { f with salaryRange := none } j := by
  have h1 : failsSalary f.salaryRange j = false := by
    rw [hf]
    simp only [failsSalary, jobMinSalary_noData j hns,
      jobMaxSalary_noData j hns, jsLt, jsGt, Bool.or_eq_false_iff,
      decide_eq_false_iff_not]
    omega
  refine ⟨h1, ?_⟩
  unfold jobPasses
  rw [h1]
  rfl

def smallSalaryFilter : FilterOptions :=
  { emptyFilters with salaryRange := some (0, 100) }

/-- Witness for C4. -/
theorem filterJobs_no_salary_witness :
    failsSalary smallSalaryFilter.salaryRange baseJob = false ∧
    jobPasses smallSalaryFilter baseJob =
      jobPasses { smallSalaryFilter with salaryRange := none } baseJob :=
  filterJobs_no_salary smallSalaryFilter baseJob 0 100 rfl (Or.inl rfl)
    (by decide) (by decide)

def hugeSalaryFilter : FilterOptions :=
  { emptyFilters with salaryRange := some (1000000, 2000000) }

/-- Counterexample to C4 as stated: a record with no salary data at all
is excluded by the salary filter [1000000, 2000000] (its effective max
999999 lies below the filter's min). -/
theorem filterJobs_no_salary_cex :
    baseJob.salaryRange = none ∧
    filterJobs [baseJob] hugeSalaryFilter = [] := by
  decide

/-- Claim C5 (amended/corrected): because every `NaN` comparison is
false, a record whose (truthy) salary bound strings both fail to parse,
or whose applied date fails to parse, always *passes* the corresponding
salary/date filter — it is never excluded by it.  (The original claim
asserted the opposite: that such records are excluded.) -/
theorem filterJobs_unparsable :
    (∀ (f : FilterOptions) (j : JobApplication) (sr : SalaryRange)
        (m mM : Str) (mn mx : Int),
      f.salaryRange = some (mn, mx) → j.salaryRange = some sr →
      sr.min = some m → m ≠ [] → parseIntJS m = none →
      sr.max = some mM → mM ≠ [] → parseIntJS mM = none →
      failsSalary f.salaryRange j = false ∧
      jobPasses f j = jobPasses { f with salaryRange := none } j) ∧
    (∀ (f : FilterOptions) (j : JobApplication) (ds de : Str),
      f.dateRange = some (ds, de) → parseDateJS j.appliedDate = none →
      failsDate f.dateRange j = false ∧
      jobPasses f j = jobPasses { f with dateRange := none } j) := by
  constructor
  · intro f j sr m mM mn mx hf hsr hmin hmne hmnan hmax hMne hMnan
    have hjmin : jobMinSalary j = none := by
      unfold jobMinSalary
      simp only [hsr, hmin]
      rw [if_neg hmne]
      exact hmnan
    have hjmax : jobMaxSalary j = none := by
      unfold jobMaxSalary
      simp only [hsr, hmax]
      rw [if_neg hMne]
      exact hMnan
    have h1 : failsSalary f.salaryRange j = false := by
      rw [hf]
      simp only [failsSalary, hjmin, hjmax]
      rfl
    refine ⟨h1, ?_⟩
    unfold jobPasses
    rw [h1]
    rfl
  · intro f j ds de hf hnan
    have h1 : failsDate f.dateRange j = false := by
      rw [hf]
      simp only [failsDate, hnan]
      rfl
    refine ⟨h1, ?_⟩
    unfold jobPasses
    rw [h1]
    rfl

def abcStr : Str := "abc".toList
def xyzStr : Str := "xyz".toList
def soonStr : Str := "soon".toList
def jan1Str : Str := "2024-01-01".toList
def jan31Str : Str := "2024-01-31".toList

def badSalaryJob : JobApplication :=
  { baseJob with
    salaryRange := some { min := some abcStr, max := some xyzStr,
                          currency := none } }

def badDateJob : JobApplication := { baseJob with appliedDate := soonStr }

def tenSalaryFilter : FilterOptions :=
  { emptyFilters with salaryRange := some (0, 10) }

def janDateFilter : FilterOptions :=
  { emptyFilters with dateRange := some (jan1Str, jan31Str) }

/-- Witness for C5. -/
theorem filterJobs_unparsable_witness :
    (failsSalary tenSalaryFilter.salaryRange badSalaryJob = false ∧
     jobPasses tenSalaryFilter badSalaryJob =
       jobPasses { tenSalaryFilter with salaryRange := none } badSalaryJob) ∧
    (failsDate janDateFilter.dateRange badDateJob = false ∧
     jobPasses janDateFilter badDateJob =
       jobPasses { janDateFilter with dateRange := none } badDateJob) :=
  ⟨filterJobs_unparsable.1 tenSalaryFilter badSalaryJob
      { min := some abcStr, max := some xyzStr, currency := none }
      abcStr xyzStr 0 10 rfl rfl rfl (by decide) (by decide) rfl (by decide)
      (by decide),
   filterJobs_unparsable.2 janDateFilter badDateJob jan1Str jan31Str rfl
      (by decide)⟩

/-- Counterexample to C5 as stated: records with unparsable salary
bounds or applied date are *included* by the corresponding filters, not
excluded. -/
theorem filterJobs_unparsable_cex :
    (parseIntJS abcStr = none ∧ parseIntJS xyzStr = none ∧
     filterJobs [badSalaryJob] tenSalaryFilter = [badSalaryJob]) ∧
    (parseDateJS soonStr = none ∧
     filterJobs [badDateJob] janDateFilter = [badDateJob]) := by
  decide

/-! ## Status automation (claim C6) -/

theorem evalRule_timeElapsed (now t dl : Int) (rule : StatusRule)
    (job : JobApplication)
    (hst : job.status = rule.fromStatus) (hcond : rule.condition = .timeElapsed)
    (hdelay : rule.timeDelay = some dl) (hdl : ¬ dl = 0)
    (ht : parseDateJS job.appliedDate = some t)
    (hge : Int.fdiv (now - t) 86400000 ≥ dl) :
    evalRule now rule job = some
      { jobId := job.id, currentStatus := job.status,
        suggestedStatus := rule.toStatus,
        reason := rule.name ++ reasonSep ++
          intToStr (Int.fdiv (now - t) 86400000) ++ reasonDaysApplication,
        confidence := min (9 / 10 : ℚ)
          (1 / 2 + ((Int.fdiv (now - t) 86400000 : ℚ) / (dl : ℚ)) * (2 / 5)),
        autoApply := false } := by
  unfold evalRule
  rw [if_neg (by rw [hst]; simp)]
  simp only [hcond, hdelay, ht]
  rw [if_neg hdl, if_pos hge]

theorem evalRule_wrong_status (now : Int) (rule : StatusRule)
    (job : JobApplication) (h : job.status ≠ rule.fromStatus) :
    evalRule now rule job = none := by
  unfold evalRule
  rw [if_pos h]

/-- Two records in status "applied", one 20 days old and one 8 days old,
under the default rules: each gets exactly one suggestion, both with the
capped confidence 0.9 (the uncapped values 117/70 and 67/70 both exceed
9/10). -/
theorem analyzeJobs_two_applied (now tA tB : Int) (jA jB : JobApplication)
    (iso : Str) (hA : jA.status = .applied) (hB : jB.status = .applied)
    (hpA : parseDateJS jA.appliedDate = some tA)
    (h20 : now - tA = 20 * 86400000)
    (hpB : parseDateJS jB.appliedDate = some tB)
    (h8 : now - tB = 8 * 86400000) :
    (analyzeJobs now (defaultRules iso) [jA, jB]).map
      (fun s => (s.jobId, s.confidence)) =
      [(jA.id, 9 / 10), (jB.id, 9 / 10)] := by
  have hne : (86400000 : Int) ≠ 0 := by norm_num
  have hdA : Int.fdiv (now - tA) 86400000 = 20 := by
    rw [h20, Int.mul_fdiv_cancel _ hne]
  have hdB : Int.fdiv (now - tB) 86400000 = 8 := by
    rw [h8, Int.mul_fdiv_cancel _ hne]
  have e1A := evalRule_timeElapsed now tA 7 (ruleAppliedFollowup iso) jA hA
    rfl rfl (by norm_num) hpA (by rw [hdA]; norm_num)
  have e1B := evalRule_timeElapsed now tB 7 (ruleAppliedFollowup iso) jB hB
    rfl rfl (by norm_num) hpB (by rw [hdB]; norm_num)
  have e2A : evalRule now (ruleInterviewFollowup iso) jA = none :=
    evalRule_wrong_status now _ jA (by rw [hA]; simp [ruleInterviewFollowup])
  have e2B : evalRule now (ruleInterviewFollowup iso) jB = none :=
    evalRule_wrong_status now _ jB (by rw [hB]; simp [ruleInterviewFollowup])
  have e3A : evalRule now (ruleShortlistedStale iso) jA = none :=
    evalRule_wrong_status now _ jA (by rw [hA]; simp [ruleShortlistedStale])
  have e3B : evalRule now (ruleShortlistedStale iso) jB = none :=
    evalRule_wrong_status now _ jB (by rw [hB]; simp [ruleShortlistedStale])
  rw [hdA] at e1A
  rw [hdB] at e1B
  have hcA : min (9 / 10 : ℚ)
      (1 / 2 + (((20 : Int) : ℚ) / ((7 : Int) : ℚ)) * (2 / 5)) = 9 / 10 := by
    rw [min_eq_left]
    norm_num
  have hcB : min (9 / 10 : ℚ)
      (1 / 2 + (((8 : Int) : ℚ) / ((7 : Int) : ℚ)) * (2 / 5)) = 9 / 10 := by
    rw [min_eq_left]
    norm_num
  rw [hcA] at e1A
  rw [hcB] at e1B
  have hfil : (defaultRules iso).filter (fun r => r.isActive) =
      defaultRules iso := rfl
  unfold analyzeJobs
  rw [hfil]
  simp only [defaultRules, List.flatMap_cons, List.flatMap_nil,
    List.filterMap_cons, List.filterMap_nil, e1A, e1B, e2A, e2B, e3A, e3B,
    List.append_nil, List.nil_append, List.cons_append,
    jsSort, List.foldl_cons, List.foldl_nil, insertStable]
  norm_num

/-- Claim C6 (amended): for the active default rule with condition
time_elapsed and threshold 7, two records in status "applied", one
applied 20 days before now and one 8 days before, each receive exactly
one suggestion — and both confidences are *equal* to the 0.9 cap;
the 20-day record's confidence is not strictly higher. -/
theorem analyzeJobs_cap (now tA tB : Int) (jA jB : JobApplication)
    (iso : Str) (hA : jA.status = .applied) (hB : jB.status = .applied)
    (hpA : parseDateJS jA.appliedDate = some tA)
    (h20 : now - tA = 20 * 86400000)
    (hpB : parseDateJS jB.appliedDate = some tB)
    (h8 : now - tB = 8 * 86400000) :
    (analyzeJobs now (defaultRules iso) [jA, jB]).map
      (fun s => (s.jobId, s.confidence)) =
      [(jA.id, 9 / 10), (jB.id, 9 / 10)] ∧
    ¬ ((9 / 10 : ℚ) > (9 / 10 : ℚ)) :=
  ⟨analyzeJobs_two_applied now tA tB jA jB iso hA hB hpA h20 hpB h8,
   by norm_num⟩

def capJobA : JobApplication :=
  { baseJob with id := "A".toList, appliedDate := "2024-01-05".toList }
def capJobB : JobApplication :=
  { baseJob with id := "B".toList, appliedDate := "2024-01-17".toList }

/-- 2024-01-25T00:00Z in epoch milliseconds: 20 days after `capJobA`'s
applied date and 8 days after `capJobB`'s. -/
def capNow : Int := 1706140800000

/-- Witness for C6. -/
theorem analyzeJobs_cap_witness :
    (analyzeJobs capNow (defaultRules []) [capJobA, capJobB]).map
      (fun s => (s.jobId, s.confidence)) =
      [(capJobA.id, 9 / 10), (capJobB.id, 9 / 10)] ∧
    ¬ ((9 / 10 : ℚ) > (9 / 10 : ℚ)) :=
  analyzeJobs_cap capNow 1704412800000 1705449600000 capJobA capJobB []
    rfl rfl (by decide) (by decide) (by decide) (by decide)

/-- Counterexample to C6 as stated: on the concrete 20-day and 8-day
records both suggestions carry confidence exactly 9/10, so the 20-day
suggestion's confidence is not strictly higher than the 8-day one's. -/
theorem analyzeJobs_strict_cex :
    (analyzeJobs capNow (defaultRules []) [capJobA, capJobB]).map
      (fun s => (s.jobId, s.confidence)) =
      [(capJobA.id, 9 / 10), (capJobB.id, 9 / 10)] ∧
    ¬ ((9 / 10 : ℚ) > (9 / 10 : ℚ)) :=
  ⟨analyzeJobs_two_applied capNow 1704412800000 1705449600000 capJobA capJobB
      [] rfl rfl (by decide) (by decide) (by decide) (by decide),
   by norm_num⟩

/-! ## Sort (claim C9) -/

theorem sortLe_asc_valid (a b : JobApplication) (x y : Int)
    (hx : parseDateJS a.appliedDate = some x)
    (hy : parseDateJS b.appliedDate = some y) :
    sortLe .appliedDate .asc a b = decide (x ≤ y) := by
  simp [sortLe, orderedComparison, comparisonOf, jsSub, hx, hy, sub_nonpos]

theorem sortLe_desc_valid (a b : JobApplication) (x y : Int)
    (hx : parseDateJS a.appliedDate = some x)
    (hy : parseDateJS b.appliedDate = some y) :
    sortLe .appliedDate .desc a b = decide (y ≤ x) := by
  simp [sortLe, orderedComparison, comparisonOf, jsSub, hx, hy, neg_nonpos,
    sub_nonneg]

/-- Claim C9: on records whose applied dates all parse and are pairwise
distinct, sorting by appliedDate descending yields exactly the reverse
of sorting ascending (the "desc" order negates the comparator). -/
theorem sortJobs_desc_reverse (jobs : List JobApplication)
    (hval : ∀ j ∈ jobs, (parseDateJS j.appliedDate).isSome = true)
    (hdist : jobs.Pairwise
      (fun a b => parseDateJS a.appliedDate ≠ parseDateJS b.appliedDate)) :
    sortJobs .appliedDate .desc jobs =
      (sortJobs .appliedDate .asc jobs).reverse := by
  have hkey : ∀ j ∈ jobs, ∃ x, parseDateJS j.appliedDate = some x := by
    intro j hj
    exact Option.isSome_iff_exists.mp (hval j hj)
  have totA : ∀ a b, a ∈ jobs → b ∈ jobs →
      sortLe .appliedDate .asc a b = true ∨
      sortLe .appliedDate .asc b a = true := by
    intro a b ha hb
    obtain ⟨x, hx⟩ := hkey a ha
    obtain ⟨y, hy⟩ := hkey b hb
    rw [sortLe_asc_valid a b x y hx hy, sortLe_asc_valid b a y x hy hx]
    rcases le_total x y with h | h
    · exact Or.inl (by simpa using h)
    · exact Or.inr (by simpa using h)
  have transA : ∀ a b c, a ∈ jobs → b ∈ jobs → c ∈ jobs →
      sortLe .appliedDate .asc a b = true →
      sortLe .appliedDate .asc b c = true →
      sortLe .appliedDate .asc a c = true := by
    intro a b c ha hb hc hab hbc
    obtain ⟨x, hx⟩ := hkey a ha
    obtain ⟨y, hy⟩ := hkey b hb
    obtain ⟨z, hz⟩ := hkey c hc
    rw [sortLe_asc_valid a b x y hx hy] at hab
    rw [sortLe_asc_valid b c y z hy hz] at hbc
    rw [sortLe_asc_valid a c x z hx hz]
    simp only [decide_eq_true_eq] at hab hbc ⊢
    exact le_trans hab hbc
  have totD : ∀ a b, a ∈ jobs → b ∈ jobs →
      sortLe .appliedDate .desc a b = true ∨
      sortLe .appliedDate .desc b a = true := by
    intro a b ha hb
    obtain ⟨x, hx⟩ := hkey a ha
    obtain ⟨y, hy⟩ := hkey b hb
    rw [sortLe_desc_valid a b x y hx hy, sortLe_desc_valid b a y x hy hx]
    rcases le_total x y with h | h
    · exact Or.inr (by simpa using h)
    · exact Or.inl (by simpa using h)
  have transD : ∀ a b c, a ∈ jobs → b ∈ jobs → c ∈ jobs →
      sortLe .appliedDate .desc a b = true →
      sortLe .appliedDate .desc b c = true →
      sortLe .appliedDate .desc a c = true := by
    intro a b c ha hb hc hab hbc
    obtain ⟨x, hx⟩ := hkey a ha
    obtain ⟨y, hy⟩ := hkey b hb
    obtain ⟨z, hz⟩ := hkey c hc
    rw [sortLe_desc_valid a b x y hx hy] at hab
    rw [sortLe_desc_valid b c y z hy hz] at hbc
    rw [sortLe_desc_valid a c x z hx hz]
    simp only [decide_eq_true_eq] at hab hbc ⊢
    exact le_trans hbc hab
  have hpermA : List.Perm (jsSort (sortLe .appliedDate .asc) jobs) jobs :=
    jsSort_perm _ jobs
  have hpermD : List.Perm (jsSort (sortLe .appliedDate .desc) jobs) jobs :=
    jsSort_perm _ jobs
  have hAsorted := jsSort_sorted (sortLe .appliedDate .asc) (· ∈ jobs)
    (fun a b ha hb => totA a b ha hb) (fun a b c ha hb hc => transA a b c ha hb hc)
    jobs (fun a ha => ha)
  have hDsorted := jsSort_sorted (sortLe .appliedDate .desc) (· ∈ jobs)
    (fun a b ha hb => totD a b ha hb) (fun a b c ha hb hc => transD a b c ha hb hc)
    jobs (fun a ha => ha)
  have hArev : (jsSort (sortLe .appliedDate .asc) jobs).reverse.Pairwise
      (fun a b => sortLe .appliedDate .asc b a = true) :=
    List.pairwise_reverse.mpr hAsorted
  have hArevD : (jsSort (sortLe .appliedDate .asc) jobs).reverse.Pairwise
      (fun a b => sortLe .appliedDate .desc a b = true) := by
    refine List.Pairwise.imp_of_mem ?_ hArev
    intro a b ha hb hba
    have haj : a ∈ jobs := hpermA.subset (List.mem_reverse.mp ha)
    have hbj : b ∈ jobs := hpermA.subset (List.mem_reverse.mp hb)
    obtain ⟨x, hx⟩ := hkey a haj
    obtain ⟨y, hy⟩ := hkey b hbj
    rw [sortLe_asc_valid b a y x hy hx] at hba
    rw [sortLe_desc_valid a b x y hx hy]
    exact hba
  have hperm : List.Perm (jsSort (sortLe .appliedDate .desc) jobs)
      (jsSort (sortLe .appliedDate .asc) jobs).reverse :=
    hpermD.trans (hpermA.symm.trans (List.reverse_perm _).symm)
  have hanti : ∀ a b, a ∈ jsSort (sortLe .appliedDate .desc) jobs →
      b ∈ jsSort (sortLe .appliedDate .desc) jobs →
      sortLe .appliedDate .desc a b = true →
      sortLe .appliedDate .desc b a = true → a = b := by
    intro a b ha hb hab hba
    have haj : a ∈ jobs := hpermD.subset ha
    have hbj : b ∈ jobs := hpermD.subset hb
    obtain ⟨x, hx⟩ := hkey a haj
    obtain ⟨y, hy⟩ := hkey b hbj
    rw [sortLe_desc_valid a b x y hx hy] at hab
    rw [sortLe_desc_valid b a y x hy hx] at hba
    simp only [decide_eq_true_eq] at hab hba
    by_contra hne
    have hsym : Symmetric (fun a b : JobApplication =>
        parseDateJS a.appliedDate ≠ parseDateJS b.appliedDate) :=
      fun a b h heq => h heq.symm
    have := hdist.forall hsym haj hbj hne
    apply this
    rw [hx, hy]
    congr 1
    exact le_antisymm hba hab
  exact sorted_perm_unique (sortLe .appliedDate .desc) _ _ hperm hDsorted
    hArevD hanti

def dateJob1 : JobApplication :=
  { baseJob with id := "d1".toList, appliedDate := "2024-01-17".toList }
def dateJob2 : JobApplication :=
  { baseJob with id := "d2".toList, appliedDate := "2024-01-05".toList }
def dateJob3 : JobApplication :=
  { baseJob with id := "d3".toList, appliedDate := "2024-01-25".toList }

/-- Witness for C9 on three records with distinct applied dates. -/
theorem sortJobs_desc_reverse_witness :
    sortJobs .appliedDate .desc [dateJob1, dateJob2, dateJob3] =
      (sortJobs .appliedDate .asc [dateJob1, dateJob2, dateJob3]).reverse :=
  sortJobs_desc_reverse [dateJob1, dateJob2, dateJob3] (by decide)
    (by decide)

end Applitrack
